import Mathlib

/-!
Verification of the pg2mysql core: the schema model, the column-compatibility
validator and the row migrator are shallowly embedded from the Go source.
Machine `int64` values are embedded as `Int` (no arithmetic here can overflow),
fallible Go functions return `Except String`, and the SQL statements the code
issues are given their standard relational meaning over an explicit model of
the database contents.
-/

namespace Pg2Mysql

/-- Embeds Go `Column` (schema): name, declared type, character max width;
`MaxChars int64` becomes `Int`, with 0 meaning unbounded/non-text. -/
structure Column where
  Name : String
  ColType : String
  MaxChars : Int
deriving Repr, DecidableEq

/-- Embeds Go `Table`: name and introspection-ordered column list. -/
structure Table where
  Name : String
  Columns : List Column
deriving Repr, DecidableEq

/-- Embeds `Column.Compatible`: true when both widths are zero; when both are
positive, true exactly when the receiver's (destination's) width is strictly
less than the argument's (source's) width; false otherwise. -/
def Column.Compatible (c other : Column) : Bool :=
  if c.MaxChars = 0 ∧ other.MaxChars = 0 then
    true
  else if 0 < c.MaxChars ∧ 0 < other.MaxChars then
    decide (c.MaxChars < other.MaxChars)
  else
    false

/-- Embeds `Column.Incompatible`. -/
def Column.Incompatible (c other : Column) : Bool :=
  !(c.Compatible other)

/-- Embeds the search loop of `Table.GetColumn`: first column with the given
name, together with its index; `none` embeds the "column not found" error. -/
def getColumnAux (name : String) : Nat → List Column → Option (Nat × Column)
  | _, [] => none
  | i, c :: rest => if c.Name = name then some (i, c) else getColumnAux name (i + 1) rest

/-- Embeds `Table.GetColumn`. -/
def Table.GetColumn (t : Table) (name : String) : Option (Nat × Column) :=
  getColumnAux name 0 t.Columns

/-- Embeds `Table.HasColumn`: true when `GetColumn` does not error. -/
def Table.HasColumn (t : Table) (name : String) : Bool :=
  (t.GetColumn name).isSome

/-- Embeds the loop of `GetIncompatibleColumns` over the destination columns:
each destination column is looked up in the source table (a missing column is
a fatal error), and is collected when incompatible with its source
counterpart. -/
def getIncompatibleColumnsAux (src : Table) : List Column → Except String (List Column)
  | [] => Except.ok []
  | dstColumn :: rest =>
    match src.GetColumn dstColumn.Name with
    | none =>
      Except.error ("failed to find column '" ++ dstColumn.Name ++ "' in source schema")
    | some (_, srcColumn) =>
      match getIncompatibleColumnsAux src rest with
      | Except.error e => Except.error e
      | Except.ok cols =>
        if dstColumn.Incompatible srcColumn then Except.ok (dstColumn :: cols)
        else Except.ok cols

/-- Embeds `GetIncompatibleColumns`. -/
def GetIncompatibleColumns (src dst : Table) : Except String (List Column) :=
  getIncompatibleColumnsAux src dst.Columns

/-- C1: `Compatible(dst, src)` is true when both max widths are zero, false
whenever exactly one of the two widths is zero, and for two nonzero
(nonnegative, as character widths are) widths it is true exactly when the
destination's max width is strictly less than the source's max width. -/
theorem c1_compatible_rule (c other : Column)
    (hc : 0 ≤ c.MaxChars) (ho : 0 ≤ other.MaxChars) :
    ((c.MaxChars = 0 ∧ other.MaxChars = 0) → c.Compatible other = true)
    ∧ ((c.MaxChars = 0 ∧ other.MaxChars ≠ 0) → c.Compatible other = false)
    ∧ ((c.MaxChars ≠ 0 ∧ other.MaxChars = 0) → c.Compatible other = false)
    ∧ ((c.MaxChars ≠ 0 ∧ other.MaxChars ≠ 0) →
        (c.Compatible other = true ↔ c.MaxChars < other.MaxChars)) := by
  unfold Column.Compatible
  refine ⟨?_, ?_, ?_, ?_⟩
  · rintro ⟨h1, h2⟩
    simp [h1, h2]
  · rintro ⟨h1, h2⟩
    split_ifs with hz hp
    · exact absurd hz.2 h2
    · exact absurd hp.1 (by omega)
    · rfl
  · rintro ⟨h1, h2⟩
    split_ifs with hz hp
    · exact absurd hz.1 h1
    · exact absurd hp.2 (by omega)
    · rfl
  · rintro ⟨h1, h2⟩
    split_ifs with hz hp
    · exact absurd hz.1 h1
    · simp
    · exact absurd ⟨by omega, by omega⟩ hp

/-- Witness for C1 at the concrete pair of widths (3, 5). -/
theorem c1_compatible_rule_witness :
    (Column.mk "a" "varchar" 3).Compatible (Column.mk "b" "varchar" 5) = true :=
  ((c1_compatible_rule (Column.mk "a" "varchar" 3) (Column.mk "b" "varchar" 5)
    (by decide) (by decide)).2.2.2 (by decide)).mpr (by decide)

/-! Helper lemmas about column lookup under unique names. -/

theorem getColumnAux_self (name : String) (cols : List Column)
    (hnd : (cols.map Column.Name).Nodup) (c : Column) (hc : c ∈ cols) (hn : c.Name = name) :
    ∀ i, ∃ j, getColumnAux name i cols = some (j, c) := by
  induction cols with
  | nil => cases hc
  | cons h rest ih =>
    intro i
    rcases List.mem_cons.mp hc with heq | hmem
    · subst heq
      simp [getColumnAux, hn]
    · by_cases hh : h.Name = name
      · exfalso
        have : c.Name ∈ rest.map Column.Name := List.mem_map_of_mem Column.Name hmem
        rw [hn, ← hh] at this
        exact (List.nodup_cons.mp (by simpa using hnd)).1 this
      · have := ih (List.nodup_cons.mp (by simpa using hnd)).2 hmem (i + 1)
        simpa [getColumnAux, hh] using this

theorem getColumn_self (t : Table) (hnd : (t.Columns.map Column.Name).Nodup)
    (c : Column) (hc : c ∈ t.Columns) :
    ∃ j, t.GetColumn c.Name = some (j, c) :=
  getColumnAux_self c.Name t.Columns hnd c hc rfl 0

/-- On a self-comparison, the incompatible-column scan keeps exactly the
columns that are incompatible with themselves. -/
theorem getIncompatibleColumnsAux_self (t : Table) (l : List Column)
    (hl : ∀ c ∈ l, ∃ j, t.GetColumn c.Name = some (j, c)) :
    getIncompatibleColumnsAux t l = Except.ok (l.filter (fun c => c.Incompatible c)) := by
  induction l with
  | nil => rfl
  | cons c rest ih =>
    obtain ⟨j, hj⟩ := hl c (List.mem_cons_self c rest)
    have hrest := ih (fun c' hc' => hl c' (List.mem_cons_of_mem c hc'))
    simp only [getIncompatibleColumnsAux, hj, hrest, List.filter_cons]
    cases hcc : c.Incompatible c
    · simp [hcc]
    · simp [hcc]

theorem compatible_self_iff (c : Column) (hc : 0 ≤ c.MaxChars) :
    c.Incompatible c = decide (0 < c.MaxChars) := by
  unfold Column.Incompatible Column.Compatible
  split_ifs with hz hp
  · have h0 : c.MaxChars = 0 := hz.1
    simp [h0]
  · have h1 : 0 < c.MaxChars := hp.1
    simp [h1]
  · exfalso
    have hnp : ¬ 0 < c.MaxChars := fun h => hp ⟨h, h⟩
    exact hz ⟨by omega, by omega⟩

/-- C10: the compatibility relation is irreflexive and symmetric-failing on
bounded columns: a column of positive width is incompatible with itself, two
columns of equal nonzero width are incompatible in both directions, and
comparing a table against itself reports exactly its width-bounded columns as
incompatible. -/
theorem c10_incompatible_self :
    (∀ c : Column, 0 < c.MaxChars → c.Compatible c = false)
    ∧ (∀ c d : Column, c.MaxChars = d.MaxChars → c.MaxChars ≠ 0 →
        c.Compatible d = false ∧ d.Compatible c = false)
    ∧ (∀ t : Table, (t.Columns.map Column.Name).Nodup →
        (∀ c ∈ t.Columns, 0 ≤ c.MaxChars) →
        GetIncompatibleColumns t t =
          Except.ok (t.Columns.filter (fun c => decide (0 < c.MaxChars)))) := by
  refine ⟨?_, ?_, ?_⟩
  · intro c hc
    unfold Column.Compatible
    split_ifs with hz hp
    · exact absurd hz.1 (by omega)
    · simp
    · rfl
  · intro c d heq hne
    constructor
    · unfold Column.Compatible
      split_ifs with hz hp
      · exact absurd hz.1 hne
      · simp [heq]
      · rfl
    · unfold Column.Compatible
      split_ifs with hz hp
      · exact absurd hz.2 hne
      · simp [heq]
      · rfl
  · intro t hnd hnn
    unfold GetIncompatibleColumns
    rw [getIncompatibleColumnsAux_self t t.Columns (fun c hc => getColumn_self t hnd c hc)]
    congr 1
    apply List.filter_congr
    intro c hc
    rw [compatible_self_iff c (hnn c hc)]

/-! ## Validator: row-level checks

The validator issues SQL against the source store.  The store contents are
modelled explicitly: a row exposes the textual length of each of its columns
(`LENGTH(col::text)`) and the value of the table's primary-key column, and the
queries of `GetIncompatibleRowIDsAndColumns` / `GetIncompatibleRowCount` are
given their standard relational meaning over those contents. -/

/-- One source row: its primary-key value (as scanned, a string) and the
character length of each column's value cast to text. -/
structure SrcRow where
  pk : String
  len : String → Nat

/-- A store handle: the schema introspection result (in map-iteration order),
the primary-key column per table ("" when the table has none, as the
PostgreSQL adapter reports), and the stored rows per table in scan order. -/
structure DBData where
  schema : List Table
  primaryKey : String → String
  rowsOf : String → List SrcRow

/-- Meaning of `SELECT ... FROM tbl WHERE LENGTH(col::text) > maxChars`:
the rows whose column text length exceeds the bound, in scan order. -/
def queryViolRows (db : DBData) (tbl colName : String) (maxChars : Int) : List SrcRow :=
  (db.rowsOf tbl).filter (fun r => decide ((r.len colName : Int) > maxChars))

/-- Meaning of the row-id query of `GetIncompatibleRowIDsAndColumns`:
primary-key values of the violating rows, in scan order. -/
def queryViolatingPKs (db : DBData) (tbl colName : String) (maxChars : Int) : List String :=
  (queryViolRows db tbl colName maxChars).map SrcRow.pk

/-- Maximum of a list of naturals (0 on the empty list). -/
def natListMax : List Nat → Nat
  | [] => 0
  | x :: xs => Nat.max x (natListMax xs)

/-- Meaning of `SELECT MAX(LENGTH(col::text)) FROM tbl` followed by a scan
into an int: `MAX` over an empty table is NULL, which fails the scan. -/
def queryMaxLen (db : DBData) (tbl colName : String) : Except String Int :=
  match db.rowsOf tbl with
  | [] => Except.error "failed getting max chars: cannot scan NULL into int"
  | _ => Except.ok ((natListMax ((db.rowsOf tbl).map (fun r => r.len colName)) : Nat) : Int)

/-- Embeds Go `IncompatibleColumnMetadata`. -/
structure IncompatibleColumnMetadata where
  ColumnName : String
  MaxChars : Int
deriving Repr, DecidableEq

theorem natListMax_mem : ∀ (l : List Nat), l ≠ [] → natListMax l ∈ l := by
  intro l
  induction l with
  | nil => intro h; exact absurd rfl h
  | cons x xs ih =>
    intro _
    cases hxs : xs with
    | nil => simp [natListMax]
    | cons y ys =>
      rw [← hxs]
      have hm := ih (by rw [hxs]; exact List.cons_ne_nil y ys)
      rcases Nat.le_total (natListMax xs) x with hle | hle
      · have : natListMax (x :: xs) = x := by
          simp [natListMax, Nat.max_eq_left hle]
        rw [this]; exact List.mem_cons_self x xs
      · have : natListMax (x :: xs) = natListMax xs := by
          simp [natListMax, Nat.max_eq_right hle]
        rw [this]; exact List.mem_cons_of_mem x hm

theorem le_natListMax : ∀ (l : List Nat) (a : Nat), a ∈ l → a ≤ natListMax l := by
  intro l
  induction l with
  | nil => intro a ha; cases ha
  | cons x xs ih =>
    intro a ha
    rcases List.mem_cons.mp ha with heq | hmem
    · subst heq; exact Nat.le_max_left a (natListMax xs)
    · exact Nat.le_trans (ih a hmem) (Nat.le_max_right x (natListMax xs))

/-- When at least one row violates the width bound, the maximum length over
all rows of the table equals the maximum length over just the violating rows:
any row realising the global maximum is itself a violator. -/
theorem natListMax_viol_eq (rows : List SrcRow) (colName : String) (maxChars : Int)
    (hfil : rows.filter (fun r => decide ((r.len colName : Int) > maxChars)) ≠ []) :
    natListMax (rows.map (fun r => r.len colName)) =
      natListMax ((rows.filter (fun r => decide ((r.len colName : Int) > maxChars))).map
        (fun r => r.len colName)) := by
  have hFne : (rows.filter (fun r => decide ((r.len colName : Int) > maxChars))).map
      (fun r => r.len colName) ≠ [] := by
    intro hcon
    exact hfil (List.map_eq_nil.mp hcon)
  have hLne : rows.map (fun r => r.len colName) ≠ [] := by
    intro hcon
    rw [List.map_eq_nil.mp hcon] at hfil
    exact hfil rfl
  apply Nat.le_antisymm
  · -- max over all ≤ max over violating: the global-max row violates
    obtain ⟨r0, hr0mem, hr0⟩ := List.mem_map.mp (natListMax_mem _ hLne)
    obtain ⟨rv, hrvfil⟩ := List.exists_mem_of_ne_nil _ hfil
    have hrvmem : rv ∈ rows := (List.mem_filter.mp hrvfil).1
    have hrvviol : (rv.len colName : Int) > maxChars := by
      have := (List.mem_filter.mp hrvfil).2
      simpa using this
    have hrvle : rv.len colName ≤ natListMax (rows.map (fun r => r.len colName)) :=
      le_natListMax _ _ (List.mem_map_of_mem (fun r => r.len colName) hrvmem)
    have hr0viol : (r0.len colName : Int) > maxChars := by
      rw [← hr0] at hrvle
      have h1 : (rv.len colName : Int) ≤ (r0.len colName : Int) := by exact_mod_cast hrvle
      omega
    have hr0fil : r0 ∈ rows.filter (fun r => decide ((r.len colName : Int) > maxChars)) :=
      List.mem_filter.mpr ⟨hr0mem, by simpa using hr0viol⟩
    rw [← hr0]
    exact le_natListMax _ _ (List.mem_map_of_mem (fun r => r.len colName) hr0fil)
  · -- max over violating ≤ max over all: violating lengths are among all lengths
    obtain ⟨m, hmF, hm⟩ := List.mem_map.mp (natListMax_mem _ hFne)
    rw [← hm]
    exact le_natListMax _ _
      (List.mem_map_of_mem (fun r => r.len colName) (List.mem_filter.mp hmF).1)

theorem queryViolRows_def (db : DBData) (tbl colName : String) (maxChars : Int) :
    queryViolRows db tbl colName maxChars =
      (db.rowsOf tbl).filter (fun r => decide ((r.len colName : Int) > maxChars)) := rfl

/-- Concatenation of a list of lists (the shape in which the validator
accumulates row ids and metadata across columns). -/
def joinAll : List (List α) → List α
  | [] => []
  | l :: ls => l ++ joinAll ls

/-- The per-column body shared by the two row-level loops: when the column has
violating rows, query the maximum text length of the column over the whole
source table and emit one metadata entry; otherwise emit nothing.  (Both Go
loops gate this on the violating-row count being positive.) -/
def metaFor (db : DBData) (tbl : String) (column : Column) :
    Except String (List IncompatibleColumnMetadata) :=
  if 0 < (queryViolRows db tbl column.Name column.MaxChars).length then
    match queryMaxLen db tbl column.Name with
    | Except.error e => Except.error e
    | Except.ok m => Except.ok [IncompatibleColumnMetadata.mk column.Name m]
  else Except.ok []

/-- Embeds the per-column loop of `GetIncompatibleRowIDsAndColumns`: for each
incompatible column, append the primary-key values of the violating rows (in
scan order) and the column's metadata entry. -/
def collectRowIDs (db : DBData) (tbl : String) :
    List Column → Except String (List String × List IncompatibleColumnMetadata)
  | [] => Except.ok ([], [])
  | column :: rest =>
    match metaFor db tbl column with
    | Except.error e => Except.error e
    | Except.ok meta =>
      match collectRowIDs db tbl rest with
      | Except.error e => Except.error e
      | Except.ok p =>
        Except.ok (queryViolatingPKs db tbl column.Name column.MaxChars ++ p.1, meta ++ p.2)

/-- Embeds `GetIncompatibleRowIDsAndColumns` (nil incompatible columns short
circuit to an empty result, as in the Go source). -/
def GetIncompatibleRowIDsAndColumns (db : DBData) (src dst : Table) :
    Except String (List String × List IncompatibleColumnMetadata) :=
  match GetIncompatibleColumns src dst with
  | Except.error e => Except.error ("failed getting incompatible columns: " ++ e)
  | Except.ok [] => Except.ok ([], [])
  | Except.ok columns => collectRowIDs db src.Name columns

/-- Embeds the per-column loop of `GetIncompatibleRowCount`: sum the violating
row counts over the incompatible columns, collecting the same metadata. -/
def collectRowCount (db : DBData) (tbl : String) :
    List Column → Except String (Int × List IncompatibleColumnMetadata)
  | [] => Except.ok (0, [])
  | column :: rest =>
    match metaFor db tbl column with
    | Except.error e => Except.error e
    | Except.ok meta =>
      match collectRowCount db tbl rest with
      | Except.error e => Except.error e
      | Except.ok p =>
        Except.ok (((queryViolRows db tbl column.Name column.MaxChars).length : Int) + p.1,
                   meta ++ p.2)

/-- Embeds `GetIncompatibleRowCount`. -/
def GetIncompatibleRowCount (db : DBData) (src dst : Table) :
    Except String (Int × List IncompatibleColumnMetadata) :=
  match GetIncompatibleColumns src dst with
  | Except.error e => Except.error ("failed getting incompatible columns: " ++ e)
  | Except.ok [] => Except.ok (0, [])
  | Except.ok columns => collectRowCount db src.Name columns

/-- Spec-side description of one column's metadata, following the claim's
words: an entry exists exactly when the column has violating rows, and its
`MaxChars` is the maximum observed length among the violating rows. -/
def specMetaOne (db : DBData) (tbl : String) (col : Column) :
    List IncompatibleColumnMetadata :=
  match queryViolRows db tbl col.Name col.MaxChars with
  | [] => []
  | r :: rs =>
    [IncompatibleColumnMetadata.mk col.Name
      ((natListMax ((r :: rs).map (fun row => row.len col.Name)) : Nat) : Int)]

/-- Spec-side metadata list over the incompatible columns. -/
def specMeta (db : DBData) (tbl : String) (cols : List Column) :
    List IncompatibleColumnMetadata :=
  joinAll (cols.map (specMetaOne db tbl))

/-- The implementation's per-column metadata (max over ALL rows, gated on a
positive violating count) coincides with the spec-side description (max over
the violating rows): a row realising the global maximum is itself violating. -/
theorem metaFor_spec (db : DBData) (tbl : String) (col : Column) :
    metaFor db tbl col = Except.ok (specMetaOne db tbl col) := by
  unfold metaFor specMetaOne
  cases hv : queryViolRows db tbl col.Name col.MaxChars with
  | nil => simp [hv]
  | cons r rs =>
    have hne : db.rowsOf tbl ≠ [] := by
      intro hnil
      have hq : queryViolRows db tbl col.Name col.MaxChars = [] := by
        rw [queryViolRows_def, hnil]
        rfl
      rw [hq] at hv
      cases hv
    have hfil : (db.rowsOf tbl).filter
        (fun row => decide ((row.len col.Name : Int) > col.MaxChars)) ≠ [] := by
      rw [← queryViolRows_def, hv]
      exact List.cons_ne_nil r rs
    have hveq2 : natListMax ((db.rowsOf tbl).map (fun row => row.len col.Name)) =
        natListMax ((r :: rs).map (fun row => row.len col.Name)) := by
      rw [natListMax_viol_eq (db.rowsOf tbl) col.Name col.MaxChars hfil]
      congr 1
      rw [← queryViolRows_def, hv]
    have hmax : queryMaxLen db tbl col.Name =
        Except.ok ((natListMax ((r :: rs).map (fun row => row.len col.Name)) : Nat) : Int) := by
      unfold queryMaxLen
      cases hrows : db.rowsOf tbl with
      | nil => exact absurd hrows hne
      | cons a as =>
        rw [← hveq2, hrows]
    rw [hmax]
    simp

theorem collectRowIDs_eq_spec (db : DBData) (tbl : String) :
    ∀ cols : List Column,
      collectRowIDs db tbl cols =
        Except.ok
          (joinAll (cols.map (fun col => queryViolatingPKs db tbl col.Name col.MaxChars)),
           specMeta db tbl cols) := by
  intro cols
  induction cols with
  | nil => rfl
  | cons col rest ih =>
    unfold collectRowIDs
    rw [metaFor_spec, ih]
    simp [joinAll, specMeta]

theorem collectRowCount_eq_spec (db : DBData) (tbl : String) :
    ∀ cols : List Column,
      collectRowCount db tbl cols =
        Except.ok
          ((cols.map (fun col => ((queryViolRows db tbl col.Name col.MaxChars).length : Int))).sum,
           specMeta db tbl cols) := by
  intro cols
  induction cols with
  | nil => rfl
  | cons col rest ih =>
    unfold collectRowCount
    rw [metaFor_spec, ih]
    simp [joinAll, specMeta]

theorem getIncompatibleRowIDsAndColumns_spec (db : DBData) (src dst : Table)
    (cols : List Column) (h : GetIncompatibleColumns src dst = Except.ok cols) :
    GetIncompatibleRowIDsAndColumns db src dst =
      Except.ok
        (joinAll (cols.map (fun col => queryViolatingPKs db src.Name col.Name col.MaxChars)),
         specMeta db src.Name cols) := by
  unfold GetIncompatibleRowIDsAndColumns
  rw [h]
  cases cols with
  | nil => rfl
  | cons c cs => exact collectRowIDs_eq_spec db src.Name (c :: cs)

theorem getIncompatibleRowCount_spec (db : DBData) (src dst : Table)
    (cols : List Column) (h : GetIncompatibleColumns src dst = Except.ok cols) :
    GetIncompatibleRowCount db src dst =
      Except.ok
        ((cols.map (fun col => ((queryViolRows db src.Name col.Name col.MaxChars).length : Int))).sum,
         specMeta db src.Name cols) := by
  unfold GetIncompatibleRowCount
  rw [h]
  cases cols with
  | nil => rfl
  | cons c cs => exact collectRowCount_eq_spec db src.Name (c :: cs)

/-! ## The validation pass -/

/-- Embeds Go `MigrationConfig`. -/
structure MigrationConfig where
  IgnoreTables : List String
deriving Repr, DecidableEq

/-- Embeds `ignoreTable` (validator.go). -/
def ignoreTable (table : String) (tables : List String) : Bool :=
  tables.contains table

/-- Embeds Go `ValidationResult`. -/
structure ValidationResult where
  TableName : String
  IncompatibleRowIDs : List String
  IncompatibleColumnMetadata : List IncompatibleColumnMetadata
  IncompatibleRowCount : Int
deriving Repr, DecidableEq

/-- Embeds `Schema.GetTable`: lookup by table name ("not found" errors). -/
def getTable (tables : List Table) (name : String) : Except String Table :=
  match tables.find? (fun t => t.Name == name) with
  | some t => Except.ok t
  | none => Except.error ("table '" ++ name ++ "' not found")

/-- Embeds `HasPrimaryKey` of the source adapter: the primary-key lookup
returns "" when the table has none. -/
def HasPrimaryKey (db : DBData) (tbl : String) : Bool :=
  db.primaryKey tbl != ""

/-- Embeds the per-table body of `Validate`: the primary-key branch collects
row ids and sets the count to their number; the keyless branch only counts. -/
def validateOne (src : DBData) (srcTable dstTable : Table) : Except String ValidationResult :=
  if HasPrimaryKey src srcTable.Name then
    match GetIncompatibleRowIDsAndColumns src srcTable dstTable with
    | Except.error e => Except.error ("failed getting incompatible row ids: " ++ e)
    | Except.ok p =>
      Except.ok (ValidationResult.mk srcTable.Name p.1 p.2 (p.1.length : Int))
  else
    match GetIncompatibleRowCount src srcTable dstTable with
    | Except.error e => Except.error ("failed getting incompatible row count: " ++ e)
    | Except.ok p => Except.ok (ValidationResult.mk srcTable.Name [] p.2 p.1)

/-- Embeds the table loop of `Validate` over the source schema (in its
map-iteration order); any per-table error aborts the whole pass. -/
def validateTables (src dst : DBData) (cfg : MigrationConfig) :
    List Table → Except String (List ValidationResult)
  | [] => Except.ok []
  | srcTable :: rest =>
    if ignoreTable srcTable.Name cfg.IgnoreTables then
      validateTables src dst cfg rest
    else
      match getTable dst.schema srcTable.Name with
      | Except.error e =>
        Except.error ("failed to get table from destination schema: " ++ e)
      | Except.ok dstTable =>
        match validateOne src srcTable dstTable with
        | Except.error e => Except.error e
        | Except.ok r =>
          match validateTables src dst cfg rest with
          | Except.error e => Except.error e
          | Except.ok rs => Except.ok (r :: rs)

/-- Embeds `Validate`: both schemas are introspected (modelled by the `schema`
fields) and every non-ignored source table is validated. -/
def Validate (src dst : DBData) (cfg : MigrationConfig) :
    Except String (List ValidationResult) :=
  validateTables src dst cfg src.schema

/-! Step equations for the validation loop. -/

theorem validateTables_ign (src dst : DBData) (cfg : MigrationConfig) (t : Table)
    (rest : List Table) (hig : ignoreTable t.Name cfg.IgnoreTables = true) :
    validateTables src dst cfg (t :: rest) = validateTables src dst cfg rest := by
  conv_lhs => unfold validateTables
  rw [if_pos hig]

theorem validateTables_getTable_err (src dst : DBData) (cfg : MigrationConfig) (t : Table)
    (rest : List Table) (e : String)
    (hig : ¬ ignoreTable t.Name cfg.IgnoreTables = true)
    (hgt : getTable dst.schema t.Name = Except.error e) :
    validateTables src dst cfg (t :: rest) =
      Except.error ("failed to get table from destination schema: " ++ e) := by
  conv_lhs => unfold validateTables
  rw [if_neg hig, hgt]

theorem validateTables_step (src dst : DBData) (cfg : MigrationConfig) (t : Table)
    (rest : List Table) (dt : Table)
    (hig : ¬ ignoreTable t.Name cfg.IgnoreTables = true)
    (hgt : getTable dst.schema t.Name = Except.ok dt) :
    validateTables src dst cfg (t :: rest) =
      match validateOne src t dt with
      | Except.error e => Except.error e
      | Except.ok r =>
        match validateTables src dst cfg rest with
        | Except.error e => Except.error e
        | Except.ok rs => Except.ok (r :: rs) := by
  conv_lhs => unfold validateTables
  rw [if_neg hig, hgt]

/-- In the primary-key branch, a successful incompatible-column scan makes the
per-table validation succeed with the scan-order row ids and their count. -/
theorem validateOne_pk_ok (src : DBData) (t dt : Table) (cols : List Column)
    (hpk : HasPrimaryKey src t.Name = true)
    (hcols : GetIncompatibleColumns t dt = Except.ok cols) :
    validateOne src t dt =
      Except.ok (ValidationResult.mk t.Name
        (joinAll (cols.map (fun col => queryViolatingPKs src t.Name col.Name col.MaxChars)))
        (specMeta src t.Name cols)
        ((joinAll (cols.map (fun col =>
          queryViolatingPKs src t.Name col.Name col.MaxChars))).length : Int)) := by
  unfold validateOne
  rw [if_pos hpk, getIncompatibleRowIDsAndColumns_spec src t dt cols hcols]

/-- A failing incompatible-column scan fails the per-table validation in
either branch. -/
theorem validateOne_err (src : DBData) (t dt : Table) (e : String)
    (hcols : GetIncompatibleColumns t dt = Except.error e) :
    ∃ e2, validateOne src t dt = Except.error e2 := by
  unfold validateOne
  by_cases hpk : HasPrimaryKey src t.Name = true
  · rw [if_pos hpk]
    have h1 : GetIncompatibleRowIDsAndColumns src t dt =
        Except.error ("failed getting incompatible columns: " ++ e) := by
      unfold GetIncompatibleRowIDsAndColumns
      rw [hcols]
    rw [h1]
    exact ⟨"failed getting incompatible row ids: " ++
      ("failed getting incompatible columns: " ++ e), rfl⟩
  · rw [if_neg hpk]
    have h1 : GetIncompatibleRowCount src t dt =
        Except.error ("failed getting incompatible columns: " ++ e) := by
      unfold GetIncompatibleRowCount
      rw [hcols]
    rw [h1]
    exact ⟨"failed getting incompatible row count: " ++
      ("failed getting incompatible columns: " ++ e), rfl⟩

/-- C3 induction core: every non-ignored source table with a primary key
contributes a result whose row ids are the per-incompatible-column violating
primary keys joined in scan order, and whose count is their number. -/
theorem validateTables_pk_char (src dst : DBData) (cfg : MigrationConfig) :
    ∀ (l : List Table) (results : List ValidationResult),
      validateTables src dst cfg l = Except.ok results →
      ∀ t ∈ l, ignoreTable t.Name cfg.IgnoreTables = false →
        HasPrimaryKey src t.Name = true →
        ∃ r ∈ results, r.TableName = t.Name ∧
          ∃ dstTable, getTable dst.schema t.Name = Except.ok dstTable ∧
          ∃ cols, GetIncompatibleColumns t dstTable = Except.ok cols ∧
            r.IncompatibleRowIDs =
              joinAll (cols.map (fun col =>
                queryViolatingPKs src t.Name col.Name col.MaxChars)) ∧
            r.IncompatibleRowCount = (r.IncompatibleRowIDs.length : Int) := by
  intro l
  induction l with
  | nil =>
    intro results _ t ht
    cases ht
  | cons t' rest ih =>
    intro results hok t ht hig hpk
    by_cases hig' : ignoreTable t'.Name cfg.IgnoreTables = true
    · rw [validateTables_ign src dst cfg t' rest hig'] at hok
      rcases List.mem_cons.mp ht with heq | hmem
      · subst heq
        rw [hig] at hig'
        cases hig'
      · exact ih results hok t hmem hig hpk
    · cases hgt : getTable dst.schema t'.Name with
      | error e =>
        rw [validateTables_getTable_err src dst cfg t' rest e hig' hgt] at hok
        exact Except.noConfusion hok
      | ok dt' =>
        rw [validateTables_step src dst cfg t' rest dt' hig' hgt] at hok
        cases hvo : validateOne src t' dt' with
        | error e =>
          rw [hvo] at hok
          exact Except.noConfusion hok
        | ok r' =>
          rw [hvo] at hok
          cases hrest : validateTables src dst cfg rest with
          | error e =>
            rw [hrest] at hok
            exact Except.noConfusion hok
          | ok rs =>
            rw [hrest] at hok
            have hok2 : r' :: rs = results := by
              simpa using hok
            subst hok2
            rcases List.mem_cons.mp ht with heq | hmem
            · subst heq
              cases hcols : GetIncompatibleColumns t dt' with
              | error e =>
                obtain ⟨e2, he2⟩ := validateOne_err src t dt' e hcols
                rw [he2] at hvo
                exact Except.noConfusion hvo
              | ok cols =>
                rw [validateOne_pk_ok src t dt' cols hpk hcols] at hvo
                cases hvo
                exact ⟨_, List.mem_cons_self _ _, rfl, dt', hgt, cols, hcols, rfl, rfl⟩
            · obtain ⟨r, hr, hrest2⟩ := ih rs hrest t hmem hig hpk
              exact ⟨r, List.mem_cons_of_mem r' hr, hrest2⟩

/-- C3: for every non-ignored source table that has a primary key, the
validation pass produces a `ValidationResult` whose `IncompatibleRowIDs` is
the concatenation, per incompatible column, of the violating rows' primary
keys in scan order (no deduplication or sorting), and whose
`IncompatibleRowCount` equals the length of that id list. -/
theorem c3_rowids_scan_order (src dst : DBData) (cfg : MigrationConfig)
    (results : List ValidationResult)
    (hok : Validate src dst cfg = Except.ok results)
    (t : Table) (ht : t ∈ src.schema)
    (hig : ignoreTable t.Name cfg.IgnoreTables = false)
    (hpk : HasPrimaryKey src t.Name = true) :
    ∃ r ∈ results, r.TableName = t.Name ∧
      ∃ dstTable, getTable dst.schema t.Name = Except.ok dstTable ∧
      ∃ cols, GetIncompatibleColumns t dstTable = Except.ok cols ∧
        r.IncompatibleRowIDs =
          joinAll (cols.map (fun col =>
            queryViolatingPKs src t.Name col.Name col.MaxChars)) ∧
        r.IncompatibleRowCount = (r.IncompatibleRowIDs.length : Int) :=
  validateTables_pk_char src dst cfg src.schema results hok t ht hig hpk

/-- C6: for each incompatible column with at least one violating source row,
both row-level checks produce exactly one `IncompatibleColumnMetadata` entry
whose `MaxChars` is the maximum observed character length among the violating
source rows, and no entry for a column with zero violating rows (`specMeta`
is, per column, the one-entry-or-none list whose maximum ranges over
`queryViolRows`, the violating rows). -/
theorem c6_metadata_max (db : DBData) (src dst : Table) (cols : List Column)
    (hcols : GetIncompatibleColumns src dst = Except.ok cols) :
    (∀ ids meta, GetIncompatibleRowIDsAndColumns db src dst = Except.ok (ids, meta) →
        meta = specMeta db src.Name cols)
    ∧ (∀ cnt meta, GetIncompatibleRowCount db src dst = Except.ok (cnt, meta) →
        meta = specMeta db src.Name cols) := by
  constructor
  · intro ids meta h
    rw [getIncompatibleRowIDsAndColumns_spec db src dst cols hcols] at h
    injection h with h2
    exact (congrArg Prod.snd h2).symm
  · intro cnt meta h
    rw [getIncompatibleRowCount_spec db src dst cols hcols] at h
    injection h with h2
    exact (congrArg Prod.snd h2).symm

/-- A destination column absent from the source table makes the
incompatible-column scan fail. -/
theorem getIncompatibleColumnsAux_error (src : Table) :
    ∀ l : List Column, (∃ c ∈ l, src.HasColumn c.Name = false) →
      ∃ e, getIncompatibleColumnsAux src l = Except.error e := by
  intro l
  induction l with
  | nil =>
    rintro ⟨c, hc, _⟩
    cases hc
  | cons c' rest ih =>
    rintro ⟨c, hc, hmiss⟩
    rcases List.mem_cons.mp hc with heq | hmem
    · subst heq
      have hnone : src.GetColumn c.Name = none := by
        unfold Table.HasColumn at hmiss
        cases hg : src.GetColumn c.Name with
        | none => rfl
        | some p =>
          rw [hg] at hmiss
          cases hmiss
      refine ⟨"failed to find column '" ++ c.Name ++ "' in source schema", ?_⟩
      unfold getIncompatibleColumnsAux
      rw [hnone]
    · cases hg : src.GetColumn c'.Name with
      | none =>
        refine ⟨"failed to find column '" ++ c'.Name ++ "' in source schema", ?_⟩
        unfold getIncompatibleColumnsAux
        rw [hg]
      | some p =>
        obtain ⟨i0, c0⟩ := p
        obtain ⟨e, he⟩ := ih ⟨c, hmem, hmiss⟩
        refine ⟨e, ?_⟩
        unfold getIncompatibleColumnsAux
        rw [hg, he]

/-- A failing table makes the whole pass fail, wherever it sits in the list. -/
theorem validateTables_error_of_mem (src dst : DBData) (cfg : MigrationConfig) :
    ∀ (l : List Table) (t : Table), t ∈ l →
      ignoreTable t.Name cfg.IgnoreTables = false →
      (∀ results, validateTables src dst cfg [t] ≠ Except.ok results) →
      ∃ e, validateTables src dst cfg l = Except.error e := by
  intro l
  induction l with
  | nil =>
    intro t ht
    cases ht
  | cons t' rest ih =>
    intro t ht hig hfail
    rcases List.mem_cons.mp ht with heq | hmem
    · subst heq
      have hig' : ¬ ignoreTable t.Name cfg.IgnoreTables = true := by
        rw [hig]
        exact Bool.false_ne_true
      cases hgt : getTable dst.schema t.Name with
      | error e =>
        exact ⟨_, validateTables_getTable_err src dst cfg t rest e hig' hgt⟩
      | ok dt =>
        cases hvo : validateOne src t dt with
        | error e =>
          refine ⟨e, ?_⟩
          rw [validateTables_step src dst cfg t rest dt hig' hgt, hvo]
        | ok r =>
          exfalso
          apply hfail [r]
          rw [validateTables_step src dst cfg t [] dt hig' hgt, hvo]
          rfl
    · obtain ⟨e, he⟩ := ih t hmem hig hfail
      by_cases hig' : ignoreTable t'.Name cfg.IgnoreTables = true
      · exact ⟨e, by rw [validateTables_ign src dst cfg t' rest hig', he]⟩
      · cases hgt : getTable dst.schema t'.Name with
        | error e' =>
          exact ⟨_, validateTables_getTable_err src dst cfg t' rest e' hig' hgt⟩
        | ok dt' =>
          cases hvo : validateOne src t' dt' with
          | error e' =>
            refine ⟨e', ?_⟩
            rw [validateTables_step src dst cfg t' rest dt' hig' hgt, hvo]
          | ok r =>
            refine ⟨e, ?_⟩
            rw [validateTables_step src dst cfg t' rest dt' hig' hgt, hvo, he]

/-- C7: schema-shape mismatches are fatal to the whole validation pass: a
non-ignored source table missing from the destination schema, or a
destination column missing from the corresponding source table, makes
`Validate` return an error (and hence no results for any table). -/
theorem c7_schema_shape_fatal (src dst : DBData) (cfg : MigrationConfig) :
    ((∃ t ∈ src.schema, ignoreTable t.Name cfg.IgnoreTables = false ∧
        ∀ dt ∈ dst.schema, dt.Name ≠ t.Name) →
      ∃ e, Validate src dst cfg = Except.error e)
    ∧ ((∃ t ∈ src.schema, ignoreTable t.Name cfg.IgnoreTables = false ∧
        ∃ dt, getTable dst.schema t.Name = Except.ok dt ∧
          ∃ c ∈ dt.Columns, t.HasColumn c.Name = false) →
      ∃ e, Validate src dst cfg = Except.error e) := by
  constructor
  · rintro ⟨t, ht, hig, habsent⟩
    apply validateTables_error_of_mem src dst cfg src.schema t ht hig
    intro results hcon
    have hnone : dst.schema.find? (fun dt => dt.Name == t.Name) = none := by
      rw [List.find?_eq_none]
      intro dt hdt
      simpa using habsent dt hdt
    have hgt : getTable dst.schema t.Name =
        Except.error ("table '" ++ t.Name ++ "' not found") := by
      unfold getTable
      rw [hnone]
    rw [validateTables_getTable_err src dst cfg t [] _
      (by rw [hig]; exact Bool.false_ne_true) hgt] at hcon
    exact Except.noConfusion hcon
  · rintro ⟨t, ht, hig, dt, hdt, hc⟩
    apply validateTables_error_of_mem src dst cfg src.schema t ht hig
    intro results hcon
    obtain ⟨e, he⟩ := getIncompatibleColumnsAux_error t dt.Columns hc
    obtain ⟨e2, he2⟩ := validateOne_err src t dt e he
    rw [validateTables_step src dst cfg t [] dt
      (by rw [hig]; exact Bool.false_ne_true) hdt, he2] at hcon
    exact Except.noConfusion hcon

/-- Witness for C10 at a concrete two-column table. -/
theorem c10_incompatible_self_witness :
    GetIncompatibleColumns (Table.mk "t" [Column.mk "a" "varchar" 5, Column.mk "b" "int" 0])
        (Table.mk "t" [Column.mk "a" "varchar" 5, Column.mk "b" "int" 0]) =
      Except.ok ((Table.mk "t" [Column.mk "a" "varchar" 5, Column.mk "b" "int" 0]).Columns.filter
        (fun c => decide (0 < c.MaxChars))) :=
  c10_incompatible_self.2.2
    (Table.mk "t" [Column.mk "a" "varchar" 5, Column.mk "b" "int" 0])
    (by decide) (by decide)

/-! ## Migrator

Row contents are embedded as lists of values; times carry seconds and
nanoseconds, and `Truncate(time.Second)` zeroes the sub-second part.  Whether
an individual `INSERT` succeeds is outside the pure data model (duplicate
keys, driver failures), so the loops are parameterised by an insert outcome
per row; `insert` itself embeds the Go helper, including its treatment of a
zero `RowsAffected` as an error. -/

/-- A scanned column value. -/
inductive Value where
  | null
  | str (s : String)
  | intv (n : Int)
  | boolv (b : Bool)
  | time (sec : Int) (nsec : Nat)
deriving Repr, DecidableEq

/-- Embeds the scan-argument rewrite of `EachMissingRow`: a `time.Time` value
is replaced by `t.Truncate(time.Second)`; other values are untouched. -/
def truncVal : Value → Value
  | Value.time sec _ => Value.time sec 0
  | v => v

/-- A row of a table with a primary key: the key value (compared as text by
the set-exclusion query) and the full list of scanned column values. -/
structure PKRow where
  pk : String
  vals : List Value
deriving Repr, DecidableEq

/-- Outcome of executing one prepared `INSERT` for one row. -/
inductive InsertOutcome where
  | ok
  | execFail (msg : String)
  | zeroRows
deriving Repr, DecidableEq

/-- Embeds `insert` (migrator.go): an exec error is an error, and a result
affecting zero rows is also an error. -/
def insert : InsertOutcome → Except String Unit
  | InsertOutcome.ok => Except.ok ()
  | InsertOutcome.execFail msg => Except.error ("failed to exec stmt: " ++ msg)
  | InsertOutcome.zeroRows => Except.error "no rows affected by insert"

/-- Whether `insert` reports success for an outcome. -/
def insertSucceeds (o : InsertOutcome) : Bool :=
  match insert o with
  | Except.ok _ => true
  | Except.error _ => false

/-- Meaning of the set-exclusion query of `migrateWithPrimaryKeys`: the source
rows whose primary key is not among the destination's primary keys. -/
def missingRows (srcRows dstRows : List PKRow) : List PKRow :=
  srcRows.filter (fun r => decide (¬ r.pk ∈ dstRows.map PKRow.pk))

/-- Embeds the insert loop of `migrateWithPrimaryKeys`: a failed insert is
logged and skipped (`continue`), a successful one lands in the destination
and increments `recordsInserted`. -/
def insertLoopPK (oracle : PKRow → InsertOutcome) (dst : List PKRow) (count : Int) :
    List PKRow → List PKRow × Int
  | [] => (dst, count)
  | r :: rest =>
    match insert (oracle r) with
    | Except.error _ => insertLoopPK oracle dst count rest
    | Except.ok _ => insertLoopPK oracle (dst ++ [r]) (count + 1) rest

/-- Embeds `migrateWithPrimaryKeys`: fetch the destination's key set, select
the source rows excluded from it, insert each; returns the destination
contents and `recordsInserted`. -/
def migrateWithPrimaryKeys (oracle : PKRow → InsertOutcome)
    (srcRows dstRows : List PKRow) : List PKRow × Int :=
  insertLoopPK oracle dstRows 0 (missingRows srcRows dstRows)

/-- Embeds `EachMissingRow` composed with the insert callback of `Migrate`'s
keyless branch: every scanned source row is truncated, checked for null-safe
all-column existence against the current destination contents, and inserted
only when absent and the insert succeeds.  Returns the destination contents
and the list of rows actually inserted, in order. -/
def eachMissingRowLoop (oracle : List Value → InsertOutcome)
    (dst inserted : List (List Value)) :
    List (List Value) → List (List Value) × List (List Value)
  | [] => (dst, inserted)
  | r :: rest =>
    if r.map truncVal ∈ dst then eachMissingRowLoop oracle dst inserted rest
    else
      match insert (oracle (r.map truncVal)) with
      | Except.error _ => eachMissingRowLoop oracle dst inserted rest
      | Except.ok _ =>
        eachMissingRowLoop oracle (dst ++ [r.map truncVal])
          (inserted ++ [r.map truncVal]) rest

/-- The keyless migration of one table (`EachMissingRow` + insert callback). -/
def EachMissingRowMigrate (oracle : List Value → InsertOutcome)
    (srcRows dstRows : List (List Value)) : List (List Value) × List (List Value) :=
  eachMissingRowLoop oracle dstRows [] srcRows

theorem insertLoopPK_spec (oracle : PKRow → InsertOutcome) :
    ∀ (rows : List PKRow) (dst : List PKRow) (count : Int),
      insertLoopPK oracle dst count rows =
        (dst ++ rows.filter (fun r => insertSucceeds (oracle r)),
         count + ((rows.filter (fun r => insertSucceeds (oracle r))).length : Int)) := by
  intro rows
  induction rows with
  | nil =>
    intro dst count
    simp [insertLoopPK]
  | cons r rest ih =>
    intro dst count
    cases ho : oracle r with
    | ok =>
      have h1 : insert (oracle r) = Except.ok () := by rw [ho]; rfl
      have h2 : insertSucceeds (oracle r) = true := by rw [ho]; rfl
      have hstep : insertLoopPK oracle dst count (r :: rest) =
          insertLoopPK oracle (dst ++ [r]) (count + 1) rest := by
        conv_lhs => unfold insertLoopPK
        rw [h1]
      rw [hstep, ih, List.filter_cons, if_pos h2]
      simp only [Prod.mk.injEq]
      constructor
      · simp
      · simp only [List.length_cons]
        push_cast
        omega
    | execFail msg =>
      have h1 : insert (oracle r) = Except.error ("failed to exec stmt: " ++ msg) := by
        rw [ho]; rfl
      have h2 : insertSucceeds (oracle r) = false := by rw [ho]; rfl
      have hstep : insertLoopPK oracle dst count (r :: rest) =
          insertLoopPK oracle dst count rest := by
        conv_lhs => unfold insertLoopPK
        rw [h1]
      rw [hstep, ih, List.filter_cons, if_neg (by rw [h2]; exact Bool.false_ne_true)]
    | zeroRows =>
      have h1 : insert (oracle r) = Except.error "no rows affected by insert" := by
        rw [ho]; rfl
      have h2 : insertSucceeds (oracle r) = false := by rw [ho]; rfl
      have hstep : insertLoopPK oracle dst count (r :: rest) =
          insertLoopPK oracle dst count rest := by
        conv_lhs => unfold insertLoopPK
        rw [h1]
      rw [hstep, ih, List.filter_cons, if_neg (by rw [h2]; exact Bool.false_ne_true)]

theorem migrateWithPrimaryKeys_spec (oracle : PKRow → InsertOutcome)
    (srcRows dstRows : List PKRow) :
    migrateWithPrimaryKeys oracle srcRows dstRows =
      (dstRows ++ (missingRows srcRows dstRows).filter (fun r => insertSucceeds (oracle r)),
       (((missingRows srcRows dstRows).filter (fun r => insertSucceeds (oracle r))).length : Int)) := by
  unfold migrateWithPrimaryKeys
  rw [insertLoopPK_spec]
  simp

/-- With every insert succeeding, the primary-key strategy adds exactly the
missing rows. -/
theorem migrateWithPK_allok (srcRows dstRows : List PKRow) :
    migrateWithPrimaryKeys (fun _ => InsertOutcome.ok) srcRows dstRows =
      (dstRows ++ missingRows srcRows dstRows,
       ((missingRows srcRows dstRows).length : Int)) := by
  rw [migrateWithPrimaryKeys_spec]
  simp [insertSucceeds, insert]

/-- After one run, no source primary key is missing from the destination. -/
theorem missingRows_after (srcRows dstRows : List PKRow) :
    missingRows srcRows (dstRows ++ missingRows srcRows dstRows) = [] := by
  unfold missingRows
  rw [List.filter_eq_nil]
  intro r hr
  simp only [List.map_append, decide_eq_true_eq, not_not, List.mem_append]
  by_cases hmem : r.pk ∈ dstRows.map PKRow.pk
  · exact Or.inl hmem
  · refine Or.inr ?_
    have hrm : r ∈ srcRows.filter (fun r => decide (¬ r.pk ∈ dstRows.map PKRow.pk)) :=
      List.mem_filter.mpr ⟨hr, by simpa using hmem⟩
    exact List.mem_map_of_mem PKRow.pk hrm

/-! Step equations for the keyless loop. -/

theorem eachLoop_skip (oracle : List Value → InsertOutcome) (r : List Value)
    (rest dst ins : List (List Value)) (hmem : r.map truncVal ∈ dst) :
    eachMissingRowLoop oracle dst ins (r :: rest) =
      eachMissingRowLoop oracle dst ins rest := by
  conv_lhs => unfold eachMissingRowLoop
  rw [if_pos hmem]

theorem eachLoop_fail (oracle : List Value → InsertOutcome) (r : List Value)
    (rest dst ins : List (List Value)) (e : String) (hmem : r.map truncVal ∉ dst)
    (ho : insert (oracle (r.map truncVal)) = Except.error e) :
    eachMissingRowLoop oracle dst ins (r :: rest) =
      eachMissingRowLoop oracle dst ins rest := by
  conv_lhs => unfold eachMissingRowLoop
  rw [if_neg hmem, ho]

theorem eachLoop_ins (oracle : List Value → InsertOutcome) (r : List Value)
    (rest dst ins : List (List Value)) (u : Unit) (hmem : r.map truncVal ∉ dst)
    (ho : insert (oracle (r.map truncVal)) = Except.ok u) :
    eachMissingRowLoop oracle dst ins (r :: rest) =
      eachMissingRowLoop oracle (dst ++ [r.map truncVal]) (ins ++ [r.map truncVal]) rest := by
  conv_lhs => unfold eachMissingRowLoop
  rw [if_neg hmem, ho]

/-- Everything inserted by the keyless loop is the truncation of a source row,
was absent from the initial destination contents, and had a successful
insert. -/
theorem eachMissingRowLoop_inserted (oracle : List Value → InsertOutcome) :
    ∀ (rows dst ins : List (List Value)) (x : List Value),
      x ∈ (eachMissingRowLoop oracle dst ins rows).2 →
      x ∈ ins ∨ ((∃ s ∈ rows, x = s.map truncVal) ∧ x ∉ dst ∧
        insertSucceeds (oracle x) = true) := by
  intro rows
  induction rows with
  | nil =>
    intro dst ins x hx
    exact Or.inl hx
  | cons r rest ih =>
    intro dst ins x hx
    by_cases hmem : r.map truncVal ∈ dst
    · rw [eachLoop_skip oracle r rest dst ins hmem] at hx
      rcases ih dst ins x hx with h | ⟨⟨s, hs, hxs⟩, hnd, hsuc⟩
      · exact Or.inl h
      · exact Or.inr ⟨⟨s, List.mem_cons_of_mem r hs, hxs⟩, hnd, hsuc⟩
    · cases ho : insert (oracle (r.map truncVal)) with
      | error e =>
        rw [eachLoop_fail oracle r rest dst ins e hmem ho] at hx
        rcases ih dst ins x hx with h | ⟨⟨s, hs, hxs⟩, hnd, hsuc⟩
        · exact Or.inl h
        · exact Or.inr ⟨⟨s, List.mem_cons_of_mem r hs, hxs⟩, hnd, hsuc⟩
      | ok u =>
        rw [eachLoop_ins oracle r rest dst ins u hmem ho] at hx
        rcases ih _ _ x hx with h | ⟨⟨s, hs, hxs⟩, hnd, hsuc⟩
        · rcases List.mem_append.mp h with h1 | h1
          · exact Or.inl h1
          · have hxr : x = r.map truncVal := by simpa using h1
            subst hxr
            refine Or.inr ⟨⟨r, List.mem_cons_self r rest, rfl⟩, hmem, ?_⟩
            unfold insertSucceeds
            rw [ho]
        · refine Or.inr ⟨⟨s, List.mem_cons_of_mem r hs, hxs⟩, fun hc => hnd ?_, hsuc⟩
          exact List.mem_append.mpr (Or.inl hc)

/-- The destination contents only grow during the keyless loop. -/
theorem eachMissingRowLoop_extends (oracle : List Value → InsertOutcome) :
    ∀ (rows dst ins : List (List Value)),
      ∃ l, (eachMissingRowLoop oracle dst ins rows).1 = dst ++ l := by
  intro rows
  induction rows with
  | nil =>
    intro dst ins
    exact ⟨[], by simp [eachMissingRowLoop]⟩
  | cons r rest ih =>
    intro dst ins
    by_cases hmem : r.map truncVal ∈ dst
    · rw [eachLoop_skip oracle r rest dst ins hmem]
      exact ih dst ins
    · cases ho : insert (oracle (r.map truncVal)) with
      | error e =>
        rw [eachLoop_fail oracle r rest dst ins e hmem ho]
        exact ih dst ins
      | ok u =>
        rw [eachLoop_ins oracle r rest dst ins u hmem ho]
        obtain ⟨l, hl⟩ := ih (dst ++ [r.map truncVal]) (ins ++ [r.map truncVal])
        exact ⟨[r.map truncVal] ++ l, by rw [hl, List.append_assoc]⟩

/-- With every insert succeeding, every source row's truncation is present in
the final destination contents. -/
theorem eachMissingRowLoop_mem_final :
    ∀ (rows dst ins : List (List Value)) (r : List Value), r ∈ rows →
      r.map truncVal ∈
        (eachMissingRowLoop (fun _ => InsertOutcome.ok) dst ins rows).1 := by
  intro rows
  induction rows with
  | nil =>
    intro dst ins r hr
    cases hr
  | cons r' rest ih =>
    intro dst ins r hr
    by_cases hmem : r'.map truncVal ∈ dst
    · rw [eachLoop_skip (fun _ => InsertOutcome.ok) r' rest dst ins hmem]
      rcases List.mem_cons.mp hr with heq | hm
      · subst heq
        obtain ⟨l, hl⟩ := eachMissingRowLoop_extends (fun _ => InsertOutcome.ok) rest dst ins
        rw [hl]
        exact List.mem_append.mpr (Or.inl hmem)
      · exact ih dst ins r hm
    · rw [eachLoop_ins (fun _ => InsertOutcome.ok) r' rest dst ins () hmem rfl]
      rcases List.mem_cons.mp hr with heq | hm
      · subst heq
        obtain ⟨l, hl⟩ := eachMissingRowLoop_extends (fun _ => InsertOutcome.ok) rest
          (dst ++ [r.map truncVal]) (ins ++ [r.map truncVal])
        rw [hl]
        refine List.mem_append.mpr (Or.inl ?_)
        exact List.mem_append.mpr (Or.inr (by simp))
      · exact ih _ _ r hm

/-- When every source row's truncation already sits in the destination, the
keyless loop does nothing. -/
theorem eachMissingRowLoop_skip_all (oracle : List Value → InsertOutcome) :
    ∀ (rows dst ins : List (List Value)),
      (∀ r ∈ rows, r.map truncVal ∈ dst) →
      eachMissingRowLoop oracle dst ins rows = (dst, ins) := by
  intro rows
  induction rows with
  | nil =>
    intro dst ins _
    rfl
  | cons r rest ih =>
    intro dst ins hall
    rw [eachLoop_skip oracle r rest dst ins (hall r (List.mem_cons_self r rest))]
    exact ih dst ins (fun r2 hr2 => hall r2 (List.mem_cons_of_mem r hr2))

/-! ## The migration run (`Migrate`) and its watcher events -/

/-- The lifecycle events of the `MigratorWatcher` contract. -/
inductive WatcherEvent where
  | willDisableConstraints
  | didDisableConstraints
  | willTruncateTable (tbl : String)
  | truncateTableDidFinish (tbl : String)
  | tableMigrationDidStart (tbl : String)
  | tableMigrationDidFinish (tbl : String) (recordsInserted : Int)
  | willEnableConstraints
  | enableConstraintsDidFailWithError (e : String)
  | enableConstraintsDidFinish
deriving Repr, DecidableEq

/-- Per-table data for a run: the table either has a source primary key (and
migrates by key-set exclusion) or not (and migrates by the keyless existence
check). -/
inductive TableData where
  | withPK (name : String) (srcRows dstRows : List PKRow)
  | noPK (name : String) (srcRows dstRows : List (List Value))
deriving Repr, DecidableEq

def TableData.name : TableData → String
  | TableData.withPK n _ _ => n
  | TableData.noPK n _ _ => n

/-- Failure injection for the externally-determined outcomes of a run:
whether disabling/enabling constraints fails, whether a table's statement
preparation fails, and the per-row insert outcomes. -/
structure MigOracle where
  disableErr : Option String
  enableErr : Option String
  tableErr : String → Option String
  insertPK : String → PKRow → InsertOutcome
  insertRow : String → List Value → InsertOutcome

/-- The truncate-first events of one table. -/
def truncEvents (truncateFirst : Bool) (name : String) : List WatcherEvent :=
  if truncateFirst then
    [WatcherEvent.willTruncateTable name, WatcherEvent.truncateTableDidFinish name]
  else []

/-- `recordsInserted` of one table under the chosen strategy; truncate-first
empties the destination before the diff. -/
def tableInsertCount (o : MigOracle) (truncateFirst : Bool) : TableData → Int
  | TableData.withPK n srcRows dstRows =>
    (migrateWithPrimaryKeys (o.insertPK n) srcRows
      (if truncateFirst then [] else dstRows)).2
  | TableData.noPK n srcRows dstRows =>
    (((EachMissingRowMigrate (o.insertRow n) srcRows
      (if truncateFirst then [] else dstRows)).2).length : Int)

/-- Embeds the per-table body of `Migrate`'s loop: truncate (when configured),
prepare the insert statement (the externally-injectable fatal failure), then
run the strategy and notify the watcher of start/finish with the count. -/
def processTable (o : MigOracle) (truncateFirst : Bool) (td : TableData) :
    List WatcherEvent × Except String Int :=
  match o.tableErr td.name with
  | some e =>
    (truncEvents truncateFirst td.name,
     Except.error ("failed creating prepared statement: " ++ e))
  | none =>
    (truncEvents truncateFirst td.name ++
      [WatcherEvent.tableMigrationDidStart td.name,
       WatcherEvent.tableMigrationDidFinish td.name (tableInsertCount o truncateFirst td)],
     Except.ok (tableInsertCount o truncateFirst td))

/-- Embeds `Migrate`'s loop over the source tables: ignored tables are
skipped, a per-table failure aborts the run. -/
def migrateTables (o : MigOracle) (truncateFirst : Bool) (cfg : MigrationConfig) :
    List TableData → List WatcherEvent × Except String Unit
  | [] => ([], Except.ok ())
  | td :: rest =>
    if ignoreTable td.name cfg.IgnoreTables then
      migrateTables o truncateFirst cfg rest
    else
      match processTable o truncateFirst td with
      | (evs, Except.error e) => (evs, Except.error e)
      | (evs, Except.ok _) =>
        (evs ++ (migrateTables o truncateFirst cfg rest).1,
         (migrateTables o truncateFirst cfg rest).2)

/-- Embeds `Migrate`: disable constraints (failure aborts before the deferred
re-enable is registered), run the table loop, and — via the deferred closure —
always attempt to re-enable constraints afterwards, reporting a failure to
the watcher without changing the returned error (the Go `defer` assigns a
local `err` that the explicit `return` statements never read). -/
def Migrate (o : MigOracle) (truncateFirst : Bool) (tables : List TableData)
    (cfg : MigrationConfig) : List WatcherEvent × Except String Unit :=
  match o.disableErr with
  | some e =>
    ([WatcherEvent.willDisableConstraints],
     Except.error ("failed to disable constraints: " ++ e))
  | none =>
    ([WatcherEvent.willDisableConstraints, WatcherEvent.didDisableConstraints]
      ++ (migrateTables o truncateFirst cfg tables).1
      ++ (match o.enableErr with
          | some e => [WatcherEvent.willEnableConstraints,
                       WatcherEvent.enableConstraintsDidFailWithError e]
          | none => [WatcherEvent.willEnableConstraints,
                     WatcherEvent.enableConstraintsDidFinish]),
     (migrateTables o truncateFirst cfg tables).2)

theorem processTable_ok (o : MigOracle) (tf : Bool) (td : TableData)
    (ht : o.tableErr td.name = none) :
    processTable o tf td =
      (truncEvents tf td.name ++
        [WatcherEvent.tableMigrationDidStart td.name,
         WatcherEvent.tableMigrationDidFinish td.name (tableInsertCount o tf td)],
       Except.ok (tableInsertCount o tf td)) := by
  unfold processTable
  rw [ht]

/-- With no externally-injected table failure, the table loop succeeds
whatever the individual insert outcomes are. -/
theorem migrateTables_ok (o : MigOracle) (tf : Bool) (cfg : MigrationConfig)
    (ht : ∀ t, o.tableErr t = none) :
    ∀ tables, (migrateTables o tf cfg tables).2 = Except.ok () := by
  intro tables
  induction tables with
  | nil => rfl
  | cons td rest ih =>
    by_cases hig : ignoreTable td.name cfg.IgnoreTables = true
    · have hstep : migrateTables o tf cfg (td :: rest) = migrateTables o tf cfg rest := by
        conv_lhs => unfold migrateTables
        rw [if_pos hig]
      rw [hstep]
      exact ih
    · have hstep : migrateTables o tf cfg (td :: rest) =
          ((processTable o tf td).1 ++ (migrateTables o tf cfg rest).1,
           (migrateTables o tf cfg rest).2) := by
        conv_lhs => unfold migrateTables
        rw [if_neg hig, processTable_ok o tf td (ht td.name)]
      rw [hstep]
      exact ih

/-- C2: migration is idempotent: re-running either strategy over the
source/destination pair left by a first (fully successful) run inserts zero
additional rows — the primary-key set exclusion (with key) or the null-safe
all-column existence check (without key) excludes every row the first run
left present. -/
theorem c2_idempotent (srcPK dstPK : List PKRow) (src dst : List (List Value)) :
    (migrateWithPrimaryKeys (fun _ => InsertOutcome.ok) srcPK
        (migrateWithPrimaryKeys (fun _ => InsertOutcome.ok) srcPK dstPK).1).2 = 0
    ∧ ((EachMissingRowMigrate (fun _ => InsertOutcome.ok) src
        (EachMissingRowMigrate (fun _ => InsertOutcome.ok) src dst).1).2).length = 0 := by
  constructor
  · rw [migrateWithPK_allok srcPK dstPK]
    show (migrateWithPrimaryKeys (fun _ => InsertOutcome.ok) srcPK
      (dstPK ++ missingRows srcPK dstPK)).2 = 0
    rw [migrateWithPK_allok, missingRows_after]
    rfl
  · have hall : ∀ r ∈ src, r.map truncVal ∈
        (EachMissingRowMigrate (fun _ => InsertOutcome.ok) src dst).1 := by
      intro r hr
      exact eachMissingRowLoop_mem_final src dst [] r hr
    have hskip := eachMissingRowLoop_skip_all (fun _ => InsertOutcome.ok) src
      ((EachMissingRowMigrate (fun _ => InsertOutcome.ok) src dst).1) [] hall
    show (eachMissingRowLoop (fun _ => InsertOutcome.ok)
      ((EachMissingRowMigrate (fun _ => InsertOutcome.ok) src dst).1) [] src).2.length = 0
    rw [hskip]
    rfl

/-- C4: an individual row insert that fails or reports zero rows affected is
a failure of that insert only: the primary-key loop appends exactly the
missing rows whose insert succeeded and counts exactly those; every row the
keyless loop records as inserted had a successful insert; and a run whose
only failures are individual inserts still returns success. -/
theorem c4_insert_failure_skips :
    (∀ (oracle : PKRow → InsertOutcome) (srcRows dstRows : List PKRow),
        migrateWithPrimaryKeys oracle srcRows dstRows =
          (dstRows ++ (missingRows srcRows dstRows).filter
            (fun r => insertSucceeds (oracle r)),
           (((missingRows srcRows dstRows).filter
            (fun r => insertSucceeds (oracle r))).length : Int)))
    ∧ (∀ (oracle : List Value → InsertOutcome) (src dst : List (List Value)),
        ∀ x ∈ (EachMissingRowMigrate oracle src dst).2,
          insertSucceeds (oracle x) = true)
    ∧ (∀ (o : MigOracle) (tf : Bool) (tables : List TableData) (cfg : MigrationConfig),
        o.disableErr = none → (∀ t, o.tableErr t = none) →
        (Migrate o tf tables cfg).2 = Except.ok ()) := by
  refine ⟨migrateWithPrimaryKeys_spec, ?_, ?_⟩
  · intro oracle src dst x hx
    rcases eachMissingRowLoop_inserted oracle src dst [] x hx with h | ⟨_, _, hsuc⟩
    · cases h
    · exact hsuc
  · intro o tf tables cfg hd ht
    unfold Migrate
    rw [hd]
    exact migrateTables_ok o tf cfg ht tables

/-- C5: once constraints were successfully disabled, the run always reaches
the re-enable attempt (the watcher sees `WillEnableConstraints` on every exit
path of the table loop), a failing re-enable is reported through
`EnableConstraintsDidFailWithError`, and the run's returned result is exactly
the table loop's result — unchanged by the re-enable outcome, so an otherwise
successful run still returns success. -/
theorem c5_enable_always_attempted (o : MigOracle) (tf : Bool)
    (tables : List TableData) (cfg : MigrationConfig)
    (hd : o.disableErr = none) :
    WatcherEvent.willEnableConstraints ∈ (Migrate o tf tables cfg).1
    ∧ (∀ e, o.enableErr = some e →
        WatcherEvent.enableConstraintsDidFailWithError e ∈ (Migrate o tf tables cfg).1)
    ∧ (Migrate o tf tables cfg).2 = (migrateTables o tf cfg tables).2 := by
  unfold Migrate
  rw [hd]
  refine ⟨?_, ?_, rfl⟩
  · cases he : o.enableErr with
    | none => simp
    | some e => simp
  · intro e he
    rw [he]
    simp

/-- C8: in the keyless strategy every timestamp is truncated to whole-second
precision before both the existence check and the insert: a source row whose
truncation already appears in the destination (e.g. a destination row equal
up to sub-second precision) is treated as a duplicate and never inserted, and
every row actually inserted is the truncation of a source row. -/
theorem c8_truncated_timestamps (oracle : List Value → InsertOutcome)
    (src dst : List (List Value)) :
    (∀ r ∈ src, r.map truncVal ∈ dst →
        r.map truncVal ∉ (EachMissingRowMigrate oracle src dst).2)
    ∧ (∀ x ∈ (EachMissingRowMigrate oracle src dst).2,
        ∃ s ∈ src, x = s.map truncVal) := by
  constructor
  · intro r _ hmem hins
    rcases eachMissingRowLoop_inserted oracle src dst [] _ hins with h | ⟨_, hnd, _⟩
    · cases h
    · exact hnd hmem
  · intro x hx
    rcases eachMissingRowLoop_inserted oracle src dst [] x hx with h | ⟨hs, _, _⟩
    · cases h
    · exact hs

/-! ## Constraint toggling on the adapters (C9) -/

/-- Outcome of a Go call that can return normally, return an error, or crash
the process (Go `panic`). -/
inductive GoResult (α : Type) where
  | ok (a : α)
  | err (e : String)
  | crash (msg : String)
deriving Repr, DecidableEq

/-- Whether the call crashes the process instead of returning. -/
def GoResult.crashes : GoResult α → Bool
  | GoResult.crash _ => true
  | _ => false

/-- Embeds `postgreSQLDB.EnableConstraints` (the adapter on which constraint
toggling has no meaning): `panic("not implemented")`. -/
def postgreSQLDB_EnableConstraints : GoResult Unit :=
  GoResult.crash "not implemented"

/-- Embeds `postgreSQLDB.DisableConstraints`: `panic("not implemented")`. -/
def postgreSQLDB_DisableConstraints : GoResult Unit :=
  GoResult.crash "not implemented"

/-- C9 counterexample: the PostgreSQL adapter — the one store adapter on which
constraint toggling has no meaning — crashes the process from both
`EnableConstraints` and `DisableConstraints` instead of reporting an
"unsupported" condition as a returned result. -/
theorem c9_counterexample :
    postgreSQLDB_EnableConstraints.crashes = true
    ∧ postgreSQLDB_DisableConstraints.crashes = true :=
  ⟨rfl, rfl⟩

/-- C9 amended: on the PostgreSQL adapter, `DisableConstraints` and
`EnableConstraints` terminate the process with the Go panic message
"not implemented" rather than returning any result. -/
theorem c9_amended :
    postgreSQLDB_EnableConstraints = GoResult.crash "not implemented"
    ∧ postgreSQLDB_DisableConstraints = GoResult.crash "not implemented" :=
  ⟨rfl, rfl⟩

/-! ## Concrete witnesses -/

/-- Destination column bounded at 3 characters. -/
def colTxtDst : Column := Column.mk "txt" "varchar" 3

/-- Unbounded source counterpart. -/
def colTxtSrc : Column := Column.mk "txt" "text" 0

def srcTableW : Table := Table.mk "people" [colTxtSrc]

def dstTableW : Table := Table.mk "people" [colTxtDst]

/-- Source store: table `people` with primary key `id` and two rows whose
`txt` values have lengths 5 and 2. -/
def srcDBW : DBData :=
  DBData.mk [srcTableW] (fun _ => "id")
    (fun _ => [SrcRow.mk "1" (fun _ => 5), SrcRow.mk "2" (fun _ => 2)])

def dstDBW : DBData :=
  DBData.mk [dstTableW] (fun _ => "") (fun _ => [])

/-- Witness for C3 on the concrete store: the single violating row "1" is
reported once, and the count is 1. -/
theorem c3_witness :
    (Validate srcDBW dstDBW (MigrationConfig.mk []) =
      Except.ok [ValidationResult.mk "people" ["1"]
        [IncompatibleColumnMetadata.mk "txt" 5] 1])
    ∧ (∃ r ∈ [ValidationResult.mk "people" ["1"]
          [IncompatibleColumnMetadata.mk "txt" 5] 1],
        r.TableName = srcTableW.Name ∧
        ∃ dstTable, getTable dstDBW.schema srcTableW.Name = Except.ok dstTable ∧
        ∃ cols, GetIncompatibleColumns srcTableW dstTable = Except.ok cols ∧
          r.IncompatibleRowIDs = joinAll (cols.map (fun col =>
            queryViolatingPKs srcDBW srcTableW.Name col.Name col.MaxChars)) ∧
          r.IncompatibleRowCount = (r.IncompatibleRowIDs.length : Int)) :=
  ⟨rfl, c3_rowids_scan_order srcDBW dstDBW (MigrationConfig.mk []) _ rfl
    srcTableW (List.mem_cons_self _ _) rfl rfl⟩

/-- Witness for C6 on the concrete store: the metadata entry carries 5, the
maximum length among the violating rows. -/
theorem c6_witness :
    (GetIncompatibleColumns srcTableW dstTableW = Except.ok [colTxtDst])
    ∧ [IncompatibleColumnMetadata.mk "txt" 5] =
        specMeta srcDBW srcTableW.Name [colTxtDst] :=
  ⟨rfl, (c6_metadata_max srcDBW srcTableW dstTableW [colTxtDst] rfl).1
    ["1"] [IncompatibleColumnMetadata.mk "txt" 5] rfl⟩

def srcDBW7 : DBData :=
  DBData.mk [Table.mk "orphan" []] (fun _ => "") (fun _ => [])

def dstDBW7 : DBData :=
  DBData.mk [] (fun _ => "") (fun _ => [])

/-- Witness for C7: a source table absent from the destination schema makes
the whole pass error. -/
theorem c7_witness :
    ∃ e, Validate srcDBW7 dstDBW7 (MigrationConfig.mk []) = Except.error e :=
  (c7_schema_shape_fatal srcDBW7 dstDBW7 (MigrationConfig.mk [])).1
    ⟨Table.mk "orphan" [], List.mem_cons_self _ _, rfl,
     fun dt hdt => absurd hdt (List.not_mem_nil dt)⟩

/-- Oracle whose every primary-key insert reports zero rows affected. -/
def oW4 : MigOracle :=
  MigOracle.mk none none (fun _ => none)
    (fun _ _ => InsertOutcome.zeroRows) (fun _ _ => InsertOutcome.ok)

/-- Witness for C4: the run still returns success though every insert of the
table fails with zero rows affected. -/
theorem c4_witness :
    (Migrate oW4 false [TableData.withPK "people" [PKRow.mk "1" []] []]
      (MigrationConfig.mk [])).2 = Except.ok () :=
  c4_insert_failure_skips.2.2 oW4 false
    [TableData.withPK "people" [PKRow.mk "1" []] []] (MigrationConfig.mk [])
    rfl (fun _ => rfl)

/-- Oracle whose constraint re-enable fails. -/
def oW5 : MigOracle :=
  MigOracle.mk none (some "enable failed") (fun _ => none)
    (fun _ _ => InsertOutcome.ok) (fun _ _ => InsertOutcome.ok)

/-- Witness for C5: the failing re-enable is reported to the watcher. -/
theorem c5_witness :
    WatcherEvent.enableConstraintsDidFailWithError "enable failed" ∈
      (Migrate oW5 false [] (MigrationConfig.mk [])).1 :=
  (c5_enable_always_attempted oW5 false [] (MigrationConfig.mk []) rfl).2.1
    "enable failed" rfl

/-- Witness for C8: a source row with sub-second precision is treated as a
duplicate of the whole-second destination row and is not inserted. -/
theorem c8_witness :
    ([Value.time 100 500000000].map truncVal) ∉
      (EachMissingRowMigrate (fun _ => InsertOutcome.ok)
        [[Value.time 100 500000000]] [[Value.time 100 0]]).2 :=
  (c8_truncated_timestamps (fun _ => InsertOutcome.ok)
    [[Value.time 100 500000000]] [[Value.time 100 0]]).1
    [Value.time 100 500000000] (List.mem_cons_self _ _) (by decide)

end Pg2Mysql
